import Mathlib

/-
Verification development for the agents notebook (homework1/BlindDog.ipynb).

The notebook defines a generic Agent/Environment simulation kernel
(classes Thing, Agent, Environment) and a concrete specialization
(Park, Food, Water, BlindDog, program).  We give a shallow embedding:

  * A Python object is identified by a natural number (its identity);
    the mutable store is a function from identities to records.
  * ThingData holds every attribute a Thing or Agent can carry, except
    the program slot; the percept passed to an agent program is the
    list of ThingData views of the perceived objects, which is all the
    notebook programs ever inspect (isinstance checks on Food/Water).
  * Attribute absence matters in the source (a Thing never inserted in
    an Environment has no location attribute, and formatting it raises
    AttributeError), so hasLocation records whether the attribute was
    ever assigned, and hasAlive whether the alive attribute exists.
  * A subclass of Environment is a record of its overridable methods
    (percept, execute_action, default_location, exogenous_change,
    is_done); the generic step and run are parameterized by it.
  * Python list.remove and the membership test use equality, which is
    identity for these objects; we use the identity lists directly.
-/

inductive Kind where
  | food
  | water
  | dog
  | plain
deriving DecidableEq, Repr

/-- Attributes of a Thing or Agent object, minus the program slot.
The id field is the Python object identity. -/
structure ThingData where
  id : Nat
  kind : Kind
  hasAlive : Bool
  alive : Bool
  isAgent : Bool
  bump : Bool
  holding : List Nat
  performance : Int
  hasLocation : Bool
  location : Option Int
deriving DecidableEq, Repr

/-- A full object: its attributes together with the program slot.
Non-agent things carry a dummy program that is never invoked. -/
structure Thing (ρ : Type) extends ThingData where
  program : ρ → String

/-- Thing.is_alive from the source: hasattr alive and truthy. -/
def is_alive (t : ThingData) : Bool :=
  t.hasAlive && t.alive

/-- The mutable state of one Environment object: the things list, the
agents list (both lists of object identities, insertion order), and
the object store. -/
structure EnvState (ρ : Type) where
  things : List Nat
  agents : List Nat
  heap : Nat → Thing ρ

/-- The overridable methods of an Environment subclass. -/
structure EnvClass (ρ : Type) where
  percept : EnvState ρ → Nat → ρ
  execute_action : EnvState ρ → Nat → String → EnvState ρ
  default_location : EnvState ρ → Nat → Option Int
  exogenous_change : EnvState ρ → EnvState ρ
  is_done : EnvState ρ → Bool

/-- Environment.add_thing: reject a duplicate (by identity); otherwise
assign the location attribute (given value, else default_location),
append to things, and if the thing is an Agent reset performance to 0
and append to agents. -/
def add_thing (C : EnvClass ρ) (s : EnvState ρ) (tid : Nat)
    (location : Option Int) : EnvState ρ :=
  if tid ∈ s.things then s
  else
    let loc : Option Int :=
      match location with
      | some l => some l
      | none => C.default_location s tid
    if (s.heap tid).isAgent then
      { things := s.things ++ [tid]
        agents := s.agents ++ [tid]
        heap := fun n =>
          if n = tid then
            { s.heap tid with location := loc, hasLocation := true,
                              performance := 0 }
          else s.heap n }
    else
      { things := s.things ++ [tid]
        agents := s.agents
        heap := fun n =>
          if n = tid then
            { s.heap tid with location := loc, hasLocation := true }
          else s.heap n }

/-- Environment.delete_thing, with its exception behaviour.  The call
things.remove raises ValueError when the thing is absent; the except
block then formats the diagnostic, which reads thing.location and so
raises AttributeError when the object has no location attribute (the
error escapes delete_thing).  When no exception escapes, the thing is
finally removed from agents when present. -/
def delete_thingExc (s : EnvState ρ) (tid : Nat) :
    Except String (EnvState ρ) :=
  if tid ∈ s.things then
    let s1 : EnvState ρ := { s with things := s.things.erase tid }
    .ok (if tid ∈ s1.agents then
           { s1 with agents := s1.agents.erase tid }
         else s1)
  else if (s.heap tid).hasLocation then
    .ok (if tid ∈ s.agents then
           { s with agents := s.agents.erase tid }
         else s)
  else
    .error "AttributeError: object has no attribute location"

/-- The state effect of delete_thing: when an exception escapes, the
lists were not yet modified, so the state is unchanged. -/
def delete_thing (s : EnvState ρ) (tid : Nat) : EnvState ρ :=
  match delete_thingExc s tid with
  | .ok s1 => s1
  | .error _ => s

/-- Environment.list_things_at, scalar-location branch: the things
whose location attribute equals the given one, restricted by the type
filter, in insertion order, returned as attribute views. -/
def list_things_at (s : EnvState ρ) (loc : Option Int)
    (tclass : ThingData → Bool) : List ThingData :=
  ((s.things.map fun tid => (s.heap tid).toThingData).filter
    fun t => t.location == loc && tclass t)

/-- The decide phase of Environment.step: one action per agent, in
agents order; the program of a live agent applied to its percept, the
empty action for a dead one. -/
def tickActions (C : EnvClass ρ) (s : EnvState ρ) : List String :=
  s.agents.map fun aid =>
    if (s.heap aid).alive then (s.heap aid).program (C.percept s aid)
    else ""

/-- The act phase of Environment.step.  The source iterates
zip(self.agents, actions): the actions list was fixed by the decide
phase, but self.agents is read live, one index per iteration, so an
execute_action that mutates the agents list shifts the iteration. -/
def actPhase (C : EnvClass ρ) :
    List String → Nat → EnvState ρ → EnvState ρ
  | [], _, s => s
  | act :: rest, i, s =>
    match s.agents.get? i with
    | some aid => actPhase C rest (i + 1) (C.execute_action s aid act)
    | none => s

/-- Environment.step: nothing when is_done; otherwise decide all
actions, apply them, then one exogenous_change. -/
def step (C : EnvClass ρ) (s : EnvState ρ) : EnvState ρ :=
  if C.is_done s then s
  else C.exogenous_change (actPhase C (tickActions C s) 0 s)

/-- Environment.run: up to the given number of steps, checking is_done
before each one. -/
def run (C : EnvClass ρ) (steps : Nat) (s : EnvState ρ) : EnvState ρ :=
  match steps with
  | 0 => s
  | n + 1 => if C.is_done s then s else run C n (step C s)

/-
The Park specialization.  A percept is the list of attribute views of
the things at the agent location; isinstance(p, Food) is the kind test
against Kind.food, similarly Water.
-/

/-- The percept type the Park produces. -/
abbrev PPercept := List ThingData

/-- BlindDog.movedown: location += 1.  Attribute lookup falls back to
the class attribute location = 1 when the instance slot was never
assigned, and the assignment makes the instance slot present. -/
def BlindDog.movedown (t : Thing ρ) : Thing ρ :=
  { t with location := some (t.location.getD 1 + 1), hasLocation := true }

/-- BlindDog.eat: true exactly when the offered thing is a Food. -/
def BlindDog.eat (_self : ThingData) (thing : ThingData) : Bool :=
  thing.kind == Kind.food

/-- BlindDog.drink: true exactly when the offered thing is a Water. -/
def BlindDog.drink (_self : ThingData) (thing : ThingData) : Bool :=
  thing.kind == Kind.water

/-- The agent program of the blind dog: scan the percepts in order,
return eat at the first Food, drink at the first Water, and move down
when the scan finds neither. -/
def program (percepts : List ThingData) : String :=
  match percepts with
  | [] => "move down"
  | p :: rest =>
    if p.kind == Kind.food then "eat"
    else if p.kind == Kind.water then "drink"
    else program rest

/-- Park.percept: the things at the agent location, every type. -/
def Park.percept (s : EnvState PPercept) (aid : Nat) : PPercept :=
  list_things_at s (s.heap aid).location (fun _ => true)

/-- Park.execute_action: move down increments the agent location; eat
removes the first Food at the agent location when the agent confirms;
drink likewise for Water; any other action does nothing. -/
def Park.execute_action (s : EnvState PPercept) (aid : Nat)
    (action : String) : EnvState PPercept :=
  if action = "move down" then
    { s with heap := fun n =>
        if n = aid then BlindDog.movedown (s.heap n) else s.heap n }
  else if action = "eat" then
    match list_things_at s (s.heap aid).location
        (fun t => t.kind == Kind.food) with
    | [] => s
    | item :: _ =>
      if BlindDog.eat (s.heap aid).toThingData item then
        delete_thing s item.id
      else s
  else if action = "drink" then
    match list_things_at s (s.heap aid).location
        (fun t => t.kind == Kind.water) with
    | [] => s
    | item :: _ =>
      if BlindDog.drink (s.heap aid).toThingData item then
        delete_thing s item.id
      else s
  else s

/-- Park.is_done: no live agent, or no Food or Water anywhere. -/
def Park.is_done (s : EnvState PPercept) : Bool :=
  let no_edibles := !(s.things.any fun tid =>
    (s.heap tid).kind == Kind.food || (s.heap tid).kind == Kind.water)
  let dead_agents := !(s.agents.any fun aid =>
    is_alive (s.heap aid).toThingData)
  dead_agents || no_edibles

/-- The Park as an Environment subclass: percept, execute_action and
is_done overridden; default_location and exogenous_change inherited
from the base class (None and no-op). -/
def ParkC : EnvClass PPercept :=
  { percept := Park.percept
    execute_action := Park.execute_action
    default_location := fun _ _ => none
    exogenous_change := fun s => s
    is_done := Park.is_done }

/-
The concrete scenario of the notebook (cell 20): a Park, a BlindDog
with the program above, one Food and one Water, added at locations 1,
5 and 7.  Identities: dog 0, food 1, water 2.
-/

/-- A freshly constructed BlindDog carrying the program: alive, not
bumped, holding nothing, performance 0, class-attribute location 1. -/
def dogT : Thing PPercept :=
  { id := 0, kind := Kind.dog, hasAlive := true, alive := true,
    isAgent := true, bump := false, holding := [], performance := 0,
    hasLocation := true, location := some 1, program := program }

/-- A freshly constructed Food: no alive attribute, no location
attribute yet; the program slot is a dummy, a Food has none. -/
def foodT : Thing PPercept :=
  { id := 1, kind := Kind.food, hasAlive := false, alive := false,
    isAgent := false, bump := false, holding := [], performance := 0,
    hasLocation := false, location := none, program := fun _ => "" }

/-- A freshly constructed Water, like the Food. -/
def waterT : Thing PPercept :=
  { id := 2, kind := Kind.water, hasAlive := false, alive := false,
    isAgent := false, bump := false, holding := [], performance := 0,
    hasLocation := false, location := none, program := fun _ => "" }

/-- An inert filler object for unused identities of the store. -/
def plainT : Thing PPercept :=
  { id := 99, kind := Kind.plain, hasAlive := false, alive := false,
    isAgent := false, bump := false, holding := [], performance := 0,
    hasLocation := false, location := none, program := fun _ => "" }

/-- The object store of the scenario. -/
def scenarioHeap : Nat → Thing PPercept := fun n =>
  if n = 0 then dogT else if n = 1 then foodT
  else if n = 2 then waterT else plainT

/-- The freshly constructed Park: empty things and agents lists. -/
def parkInit : EnvState PPercept :=
  { things := [], agents := [], heap := scenarioHeap }

/-- The scenario state after the three add_thing calls of cell 20:
dog at 1, food at 5, water at 7. -/
def parkS0 : EnvState PPercept :=
  add_thing ParkC
    (add_thing ParkC (add_thing ParkC parkInit 0 (some 1)) 1 (some 5))
    2 (some 7)

/-
Material for the step contract (claim C1).  stepSpecTwoPhase is the
behaviour the specification describes, phrased over the snapshot of
the agents list taken at the start of the tick; the Cex environment
below exhibits the difference with the live iteration of the source.
-/

/-- The step behaviour claim C1 describes: when is_done nothing,
otherwise compute one action per agent from the start-of-tick state,
then apply execute_action to every (agent, action) pair of the
start-of-tick agents list in order, then one exogenous_change. -/
def stepSpecTwoPhase (C : EnvClass ρ) (s : EnvState ρ) : EnvState ρ :=
  if C.is_done s then s
  else
    C.exogenous_change
      (((s.agents.zip (tickActions C s)).foldl
        (fun t p => C.execute_action t p.1 p.2) s))

/-- A store of two generic live agents, identities 1 and 2, each with
a constant program. -/
def twoAgentHeap : Nat → Thing Unit := fun n =>
  { id := n, kind := Kind.plain, hasAlive := true, alive := true,
    isAgent := true, bump := false, holding := [], performance := 0,
    hasLocation := true, location := some 0, program := fun _ => "go" }

/-- An environment state with the two agents present. -/
def sTwoAgents : EnvState Unit :=
  { things := [1, 2], agents := [1, 2], heap := twoAgentHeap }

/-- An Environment subclass whose execute_action removes the acting
agent with delete_thing and then marks it by setting performance 1;
never done, trivial percept, no exogenous change. -/
def Cex : EnvClass Unit :=
  { percept := fun _ _ => ()
    execute_action := fun s aid _ =>
      let s1 := delete_thing s aid
      { s1 with heap := fun n =>
          if n = aid then { s1.heap n with performance := 1 }
          else s1.heap n }
    default_location := fun _ _ => none
    exogenous_change := fun s => s
    is_done := fun _ => false }

/-- An Environment subclass whose execute_action changes nothing at
all; used to instantiate the step contract theorem. -/
def Cid : EnvClass Unit :=
  { percept := fun _ _ => ()
    execute_action := fun s _ _ => s
    default_location := fun _ _ => none
    exogenous_change := fun s => s
    is_done := fun _ => false }

/-- Dropping at an index where get? yields an element uncovers that
element as the head. -/
theorem drop_eq_cons_of_getQ :
    ∀ (l : List α) (i : Nat) (a : α), l.get? i = some a →
      l.drop i = a :: l.drop (i + 1) := by
  intro l
  induction l with
  | nil => intro i a h; simp [List.get?] at h
  | cons b t ih =>
    intro i a h
    cases i with
    | zero => simp [List.get?] at h; simp [h]
    | succ j => simpa using ih j a h

/-- When execute_action never changes the agents list, the live act
phase of the source coincides with folding over the zip of the
start-of-tick agents list with the decided actions. -/
theorem actPhase_eq_foldl (C : EnvClass ρ)
    (hA : ∀ t a act, (C.execute_action t a act).agents = t.agents) :
    ∀ (acts : List String) (i : Nat) (s : EnvState ρ),
      actPhase C acts i s
        = ((s.agents.drop i).zip acts).foldl
            (fun t p => C.execute_action t p.1 p.2) s := by
  intro acts
  induction acts with
  | nil => intro i s; simp [actPhase]
  | cons act rest ih =>
    intro i s
    cases hg : s.agents[i]? with
    | none =>
      have hlen : s.agents.length ≤ i := by
        simpa [List.getElem?_eq_none_iff] using hg
      simp [actPhase, hg, List.drop_eq_nil_of_le hlen]
    | some aid =>
      have hg2 : s.agents.get? i = some aid := by
        simpa [List.get?_eq_getElem?] using hg
      have hdrop := drop_eq_cons_of_getQ s.agents i aid hg2
      have hAg : (C.execute_action s aid act).agents = s.agents :=
        hA s aid act
      simp only [actPhase, hg2, hdrop, List.zip_cons_cons, List.foldl_cons]
      rw [ih (i + 1) (C.execute_action s aid act), hAg]

/-
Bookkeeping invariant and reachability for the lifecycle operations.
-/

/-- The bookkeeping invariant of an Environment: agents is a subset of
things, and both lists are duplicate free. -/
def EnvInv (s : EnvState ρ) : Prop :=
  s.agents ⊆ s.things ∧ s.things.Nodup ∧ s.agents.Nodup

/-- The states an Environment reaches from construction through any
sequence of add_thing and delete_thing calls with any arguments. -/
inductive Reachable (C : EnvClass ρ) : EnvState ρ → Prop where
  | init (h : Nat → Thing ρ) :
      Reachable C { things := [], agents := [], heap := h }
  | add (tid : Nat) (loc : Option Int) {s : EnvState ρ} :
      Reachable C s → Reachable C (add_thing C s tid loc)
  | del (tid : Nat) {s : EnvState ρ} :
      Reachable C s → Reachable C (delete_thing s tid)

theorem envInv_add (C : EnvClass ρ) (s : EnvState ρ) (tid : Nat)
    (loc : Option Int) (h : EnvInv s) : EnvInv (add_thing C s tid loc) := by
  obtain ⟨hsub, hnt, hna⟩ := h
  by_cases hmem : tid ∈ s.things
  · simpa [add_thing, hmem] using ⟨hsub, hnt, hna⟩
  · have hgmem : tid ∉ s.agents := fun hc => hmem (hsub hc)
    unfold add_thing
    rw [if_neg hmem]
    by_cases hag : (s.heap tid).isAgent
    · rw [if_pos hag]
      refine ⟨?_, ?_, ?_⟩
      · intro a ha
        rcases List.mem_append.1 ha with ha1 | ha1
        · exact List.mem_append.2 (Or.inl (hsub ha1))
        · exact List.mem_append.2 (Or.inr ha1)
      · simpa [List.nodup_append, List.disjoint_singleton] using
          ⟨hnt, hmem⟩
      · simpa [List.nodup_append, List.disjoint_singleton] using
          ⟨hna, hgmem⟩
    · rw [if_neg hag]
      refine ⟨?_, ?_, hna⟩
      · intro a ha
        exact List.mem_append.2 (Or.inl (hsub ha))
      · simpa [List.nodup_append, List.disjoint_singleton] using
          ⟨hnt, hmem⟩

theorem envInv_delete (s : EnvState ρ) (tid : Nat) (h : EnvInv s) :
    EnvInv (delete_thing s tid) := by
  obtain ⟨hsub, hnt, hna⟩ := h
  unfold delete_thing delete_thingExc
  by_cases h1 : tid ∈ s.things
  · rw [if_pos h1]
    by_cases h2 : tid ∈ s.agents
    · simp only [h2, if_true, if_pos]
      refine ⟨?_, hnt.erase tid, hna.erase tid⟩
      intro a ha
      have ha2 := (hna.mem_erase_iff).1 ha
      exact (List.mem_erase_of_ne ha2.1).2 (hsub ha2.2)
    · simp only [h2, if_false, if_neg]
      refine ⟨?_, hnt.erase tid, hna⟩
      intro a ha
      have hne : a ≠ tid := fun he => h2 (he ▸ ha)
      exact (List.mem_erase_of_ne hne).2 (hsub ha)
  · rw [if_neg h1]
    have h2 : tid ∉ s.agents := fun hc => h1 (hsub hc)
    by_cases h3 : (s.heap tid).hasLocation
    · simp only [h3, if_true, h2, if_false]
      exact ⟨hsub, hnt, hna⟩
    · simp only [h3, if_false]
      exact ⟨hsub, hnt, hna⟩

theorem reachable_envInv (C : EnvClass ρ) (s : EnvState ρ)
    (h : Reachable C s) : EnvInv s := by
  induction h with
  | init h => exact ⟨by simp, List.nodup_nil, List.nodup_nil⟩
  | add tid loc _ ih => exact envInv_add C _ tid loc ih
  | del tid _ ih => exact envInv_delete _ tid ih

/-
Frame facts about delete_thing: it touches only the two lists.
-/

theorem delete_thing_heap (s : EnvState ρ) (tid : Nat) :
    (delete_thing s tid).heap = s.heap := by
  unfold delete_thing delete_thingExc
  by_cases h1 : tid ∈ s.things
  · rw [if_pos h1]
    by_cases h2 : tid ∈ s.agents <;> simp [h2]
  · rw [if_neg h1]
    by_cases h3 : (s.heap tid).hasLocation
    · rw [if_pos h3]
      by_cases h2 : tid ∈ s.agents <;> simp [h2]
    · rw [if_neg h3]

/-
Location behaviour of the Park action execution.
-/

theorem execute_action_location_mono (s : EnvState PPercept)
    (aid aid2 : Nat) (act : String) (x : Int)
    (h : (s.heap aid).location = some x) :
    ∃ y : Int,
      ((Park.execute_action s aid2 act).heap aid).location = some y
      ∧ x ≤ y := by
  unfold Park.execute_action
  by_cases h1 : act = "move down"
  · rw [if_pos h1]
    by_cases he : aid = aid2
    · refine ⟨x + 1, ?_, by omega⟩
      simp [← he, BlindDog.movedown, h]
    · refine ⟨x, ?_, le_refl x⟩
      simpa [he] using h
  · rw [if_neg h1]
    by_cases h2 : act = "eat"
    · rw [if_pos h2]
      cases hm : list_things_at s (s.heap aid2).location
          (fun t => t.kind == Kind.food) with
      | nil => exact ⟨x, h, le_refl x⟩
      | cons item rest =>
        refine ⟨x, ?_, le_refl x⟩
        dsimp only
        by_cases hb : BlindDog.eat (s.heap aid2).toThingData item = true
        · rw [if_pos hb, delete_thing_heap]
          exact h
        · rw [if_neg hb]
          exact h
    · rw [if_neg h2]
      by_cases h3 : act = "drink"
      · rw [if_pos h3]
        cases hm : list_things_at s (s.heap aid2).location
            (fun t => t.kind == Kind.water) with
        | nil => exact ⟨x, h, le_refl x⟩
        | cons item rest =>
          refine ⟨x, ?_, le_refl x⟩
          dsimp only
          by_cases hb : BlindDog.drink (s.heap aid2).toThingData item = true
          · rw [if_pos hb, delete_thing_heap]
            exact h
          · rw [if_neg hb]
            exact h
      · rw [if_neg h3]
        exact ⟨x, h, le_refl x⟩

theorem actPhase_location_mono (aid : Nat) :
    ∀ (acts : List String) (i : Nat) (s : EnvState PPercept) (x : Int),
      (s.heap aid).location = some x →
      ∃ y : Int,
        ((actPhase ParkC acts i s).heap aid).location = some y ∧ x ≤ y := by
  intro acts
  induction acts with
  | nil => intro i s x h; exact ⟨x, h, le_refl x⟩
  | cons act rest ih =>
    intro i s x h
    cases hg : s.agents[i]? with
    | none => simpa [actPhase, hg] using ⟨x, h, le_refl x⟩
    | some aid2 =>
      obtain ⟨y, hy, hxy⟩ := execute_action_location_mono s aid aid2 act x h
      have hy2 : ((ParkC.execute_action s aid2 act).heap aid).location
          = some y := hy
      obtain ⟨z, hz, hyz⟩ :=
        ih (i + 1) (ParkC.execute_action s aid2 act) y hy2
      refine ⟨z, ?_, le_trans hxy hyz⟩
      simpa [actPhase, hg] using hz

theorem step_location_mono (s : EnvState PPercept) (aid : Nat) (x : Int)
    (h : (s.heap aid).location = some x) :
    ∃ y : Int, ((step ParkC s).heap aid).location = some y ∧ x ≤ y := by
  unfold step
  by_cases hd : ParkC.is_done s = true
  · simpa [hd] using ⟨x, h, le_refl x⟩
  · simp only [hd, if_false]
    exact actPhase_location_mono aid (tickActions ParkC s) 0 s x h

/-- Mapping then filtering equals filtering the composed test then
mapping, keeping the order. -/
theorem filter_map_comm (f : α → β) (p : β → Bool) :
    ∀ l : List α,
      (l.map f).filter p = (l.filter fun a => p (f a)).map f := by
  intro l
  induction l with
  | nil => rfl
  | cons a t ih =>
    by_cases h : p (f a) <;> simp [List.filter_cons, h, ih]

/-- When the action is not move down, Park.execute_action leaves the
object store untouched: eat and drink only remove identities from the
lists. -/
theorem execute_action_heap_frame (s : EnvState PPercept) (aid2 : Nat)
    (act : String) (hnm : act ≠ "move down") :
    (Park.execute_action s aid2 act).heap = s.heap := by
  unfold Park.execute_action
  rw [if_neg hnm]
  by_cases h2 : act = "eat"
  · rw [if_pos h2]
    cases hm : list_things_at s (s.heap aid2).location
        (fun t => t.kind == Kind.food) with
    | nil => rfl
    | cons item rest =>
      dsimp only
      by_cases hb : BlindDog.eat (s.heap aid2).toThingData item = true
      · rw [if_pos hb, delete_thing_heap]
      · rw [if_neg hb]
  · rw [if_neg h2]
    by_cases h3 : act = "drink"
    · rw [if_pos h3]
      cases hm : list_things_at s (s.heap aid2).location
          (fun t => t.kind == Kind.water) with
      | nil => rfl
      | cons item rest =>
        dsimp only
        by_cases hb : BlindDog.drink (s.heap aid2).toThingData item = true
        · rw [if_pos hb, delete_thing_heap]
        · rw [if_neg hb]
    · rw [if_neg h3]

/-
The claims.
-/

/-- Claim C1 (amended): for every Environment whose execute_action
leaves the agents list unchanged, step is the two-phase behaviour the
claim describes: nothing when is_done; otherwise one action per agent
computed from the start-of-tick state (empty for a dead agent), then
execute_action applied to every pair in agents order, then exactly one
exogenous_change.  The proviso is forced: the act loop of the source
iterates the live agents list, so an execute_action that removes an
agent shifts the iteration (see the counterexample below). -/
theorem step_two_phase_of_agents_preserved (C : EnvClass ρ)
    (s : EnvState ρ)
    (hA : ∀ t a act, (C.execute_action t a act).agents = t.agents) :
    step C s = stepSpecTwoPhase C s := by
  unfold step stepSpecTwoPhase
  by_cases hd : C.is_done s = true
  · rw [if_pos hd, if_pos hd]
  · rw [if_neg hd, if_neg hd,
        actPhase_eq_foldl C hA (tickActions C s) 0 s, List.drop_zero]

/-- Claim C1 witness: the contract at a concrete environment whose
execute_action changes nothing. -/
theorem step_two_phase_witness :
    step Cid sTwoAgents = stepSpecTwoPhase Cid sTwoAgents :=
  step_two_phase_of_agents_preserved Cid sTwoAgents (fun _ _ _ => rfl)

/-- Claim C1 counterexample: an Environment that is not done and whose
agent programs are pure, yet whose step does not apply execute_action
to every agent of the agents list: execute_action deletes the acting
agent and marks it with performance 1; the source act loop then skips
the second agent, whose performance stays 0, while the claimed
behaviour marks it. -/
theorem step_live_iteration_cex :
    Cex.is_done sTwoAgents = false
    ∧ ((step Cex sTwoAgents).heap 2).performance = 0
    ∧ ((stepSpecTwoPhase Cex sTwoAgents).heap 2).performance = 1
    ∧ step Cex sTwoAgents ≠ stepSpecTwoPhase Cex sTwoAgents := by
  have e1 : ((step Cex sTwoAgents).heap 2).performance = 0 := by decide
  have e2 : ((stepSpecTwoPhase Cex sTwoAgents).heap 2).performance = 1 := by
    decide
  refine ⟨rfl, e1, e2, ?_⟩
  intro hcontra
  rw [hcontra, e2] at e1
  exact absurd e1 (by decide)

/-- Claim C2 (amended): the BlindDog program answers according to the
first element of the percept list that is a Food or a Water instance:
eat when that element is a Food, drink when it is a Water, and move
down when no element is either.  A Food occurring anywhere does not
take priority over an earlier Water. -/
theorem program_first_match (ps : List ThingData) :
    program ps =
      (match ps.find?
          (fun p => p.kind == Kind.food || p.kind == Kind.water) with
       | some p => if p.kind == Kind.food then "eat" else "drink"
       | none => "move down") := by
  induction ps with
  | nil => rfl
  | cons p rest ih =>
    by_cases hf : p.kind = Kind.food
    · simp [program, List.find?, hf]
    · by_cases hw : p.kind = Kind.water
      · simp [program, List.find?, hf, hw]
      · have hf2 : (p.kind == Kind.food) = false := by simp [hf]
        have hw2 : (p.kind == Kind.water) = false := by simp [hw]
        simp [program, List.find?, hf2, hw2, hf, hw, ih]

/-- Claim C2 counterexample: a percept list holding a Water before a
Food makes the program answer drink, not eat; the claimed order
independence fails. -/
theorem program_order_cex :
    waterT.kind = Kind.water
    ∧ foodT.kind = Kind.food
    ∧ program [waterT.toThingData, foodT.toThingData] = "drink"
    ∧ program [waterT.toThingData, foodT.toThingData] ≠ "eat" := by
  exact ⟨rfl, rfl, rfl, by decide⟩

/-- Claim C3: from the fresh Park with the dog at 1, Food at 5, Water
at 7, the five ticks of run 5 decide four move down actions with the
dog at 1, 2, 3, 4, then one eat with the dog at 5; afterwards the dog
is at 5, the Food is gone from things and the Water is still there. -/
theorem scenario_run_five :
    (tickActions ParkC (run ParkC 0 parkS0) = ["move down"]
      ∧ ((run ParkC 0 parkS0).heap 0).location = some 1)
    ∧ (tickActions ParkC (run ParkC 1 parkS0) = ["move down"]
      ∧ ((run ParkC 1 parkS0).heap 0).location = some 2)
    ∧ (tickActions ParkC (run ParkC 2 parkS0) = ["move down"]
      ∧ ((run ParkC 2 parkS0).heap 0).location = some 3)
    ∧ (tickActions ParkC (run ParkC 3 parkS0) = ["move down"]
      ∧ ((run ParkC 3 parkS0).heap 0).location = some 4)
    ∧ (tickActions ParkC (run ParkC 4 parkS0) = ["eat"]
      ∧ ((run ParkC 4 parkS0).heap 0).location = some 5)
    ∧ ((run ParkC 5 parkS0).heap 0).location = some 5
    ∧ 1 ∉ (run ParkC 5 parkS0).things
    ∧ 2 ∈ (run ParkC 5 parkS0).things := by
  decide

/-- Claim C4: in every state an Environment reaches from construction
through any sequence of add_thing and delete_thing calls, the agents
list is a subset of the things list. -/
theorem reachable_agents_subset_things (C : EnvClass ρ)
    (s : EnvState ρ) (h : Reachable C s) : s.agents ⊆ s.things :=
  (reachable_envInv C s h).1

/-- Claim C4 witness: the inclusion at a state reached by one
construction, one add_thing and one delete_thing. -/
theorem reachable_agents_subset_things_witness :
    (delete_thing
        (add_thing Cid { things := [], agents := [], heap := twoAgentHeap }
          1 (some 0)) 2).agents
      ⊆ (delete_thing
          (add_thing Cid { things := [], agents := [], heap := twoAgentHeap }
            1 (some 0)) 2).things :=
  reachable_agents_subset_things Cid _
    (Reachable.del 2 (Reachable.add 1 (some 0)
      (Reachable.init twoAgentHeap)))

/-- Claim C5: adding an Agent that is not yet present, with a non-null
location, puts it in things and in agents, resets its performance to 0
and sets its location to the given value. -/
theorem add_thing_agent_spec (C : EnvClass ρ) (s : EnvState ρ)
    (tid : Nat) (l : Int) (hmem : tid ∉ s.things)
    (hag : (s.heap tid).isAgent = true) :
    tid ∈ (add_thing C s tid (some l)).things
    ∧ tid ∈ (add_thing C s tid (some l)).agents
    ∧ ((add_thing C s tid (some l)).heap tid).performance = 0
    ∧ ((add_thing C s tid (some l)).heap tid).location = some l := by
  simp [add_thing, hmem, hag]

/-- Claim C5 witness: adding agent 1 at location 4 to an empty
environment. -/
theorem add_thing_agent_witness :
    1 ∈ (add_thing Cid { things := [], agents := [], heap := twoAgentHeap }
          1 (some 4)).things
    ∧ 1 ∈ (add_thing Cid { things := [], agents := [], heap := twoAgentHeap }
          1 (some 4)).agents
    ∧ ((add_thing Cid { things := [], agents := [], heap := twoAgentHeap }
          1 (some 4)).heap 1).performance = 0
    ∧ ((add_thing Cid { things := [], agents := [], heap := twoAgentHeap }
          1 (some 4)).heap 1).location = some 4 :=
  add_thing_agent_spec Cid _ 1 4 (by decide) rfl

/-- Claim C6 (code bug): deleting a Thing that is absent from things
and was never given a location attribute is fatal in the source: the
diagnostic in the except block formats thing.location and raises
AttributeError.  Here the fresh Food (identity 1, no location
attribute) deleted from the fresh Park. -/
theorem delete_thing_missing_attribute_raises :
    (1 ∉ parkInit.things)
    ∧ (parkInit.heap 1).hasLocation = false
    ∧ delete_thingExc parkInit 1
        = Except.error "AttributeError: object has no attribute location" := by
  exact ⟨by decide, rfl, rfl⟩

/-- Claim C7: adding a Thing already present (by identity) has no
effect at all on the environment state. -/
theorem add_thing_duplicate_noop (C : EnvClass ρ) (s : EnvState ρ)
    (tid : Nat) (loc : Option Int) (hmem : tid ∈ s.things) :
    add_thing C s tid loc = s := by
  simp [add_thing, hmem]

/-- Claim C7 witness: re-adding the dog to the scenario Park. -/
theorem add_thing_duplicate_witness :
    add_thing ParkC parkS0 0 (some 9) = parkS0 :=
  add_thing_duplicate_noop ParkC parkS0 0 (some 9) (by decide)

/-- Claim C8: an agent location carrying integer x becomes x + 1 under
the move down action, stays x under every other action, and after one
whole Park step it is still an integer no smaller than x. -/
theorem blinddog_location_step (s : EnvState PPercept) (aid : Nat)
    (act : String) (x : Int) (h : (s.heap aid).location = some x) :
    (act = "move down" →
      ((Park.execute_action s aid act).heap aid).location = some (x + 1))
    ∧ (act ≠ "move down" →
      ((Park.execute_action s aid act).heap aid).location = some x)
    ∧ ∃ y : Int, ((step ParkC s).heap aid).location = some y ∧ x ≤ y := by
  refine ⟨?_, ?_, step_location_mono s aid x h⟩
  · intro hmv
    simp [Park.execute_action, hmv, BlindDog.movedown, h]
  · intro hnm
    rw [execute_action_heap_frame s aid act hnm]
    exact h

/-- Claim C8 witness: the dog at location 1 in the scenario Park. -/
theorem blinddog_location_witness :
    ("move down" = "move down" →
      ((Park.execute_action parkS0 0 "move down").heap 0).location
        = some (1 + 1))
    ∧ ("move down" ≠ "move down" →
      ((Park.execute_action parkS0 0 "move down").heap 0).location
        = some 1)
    ∧ ∃ y : Int,
        ((step ParkC parkS0).heap 0).location = some y ∧ 1 ≤ y :=
  blinddog_location_step parkS0 0 "move down" 1 (by decide)

/-- Claim C9: for an agent present in things with a numeric location,
Park.percept returns the views of exactly the things at that location,
every type, in insertion order; the agent itself is among them, so the
percept is never empty. -/
theorem percept_things_at_agent_location (s : EnvState PPercept)
    (aid : Nat) (l : Int) (hm : aid ∈ s.things)
    (hl : (s.heap aid).location = some l) :
    Park.percept s aid
      = ((s.things.filter fun tid => (s.heap tid).location == some l).map
          fun tid => (s.heap tid).toThingData)
    ∧ (s.heap aid).toThingData ∈ Park.percept s aid
    ∧ Park.percept s aid ≠ [] := by
  have h1 : Park.percept s aid
      = ((s.things.filter
            fun tid => (s.heap tid).location == some l).map
          fun tid => (s.heap tid).toThingData) := by
    unfold Park.percept list_things_at
    rw [hl]
    have hp : (fun t : ThingData =>
        t.location == some l && (fun _ : ThingData => true) t)
        = fun t : ThingData => t.location == some l := by
      funext t; simp
    rw [hp, filter_map_comm]
  have h2 : (s.heap aid).toThingData ∈ Park.percept s aid := by
    rw [h1]
    exact List.mem_map_of_mem _
      (List.mem_filter.2 ⟨hm, by simp [hl]⟩)
  exact ⟨h1, h2, List.ne_nil_of_mem h2⟩

/-- Claim C9 witness: the dog at location 1 in the scenario Park sees
exactly itself. -/
theorem percept_things_at_agent_location_witness :
    Park.percept parkS0 0
      = ((parkS0.things.filter
            fun tid => (parkS0.heap tid).location == some 1).map
          fun tid => (parkS0.heap tid).toThingData)
    ∧ (parkS0.heap 0).toThingData ∈ Park.percept parkS0 0
    ∧ Park.percept parkS0 0 ≠ [] :=
  percept_things_at_agent_location parkS0 0 1 (by decide) (by decide)

/-- Claim C10: any action other than move down, eat and drink, in
particular the empty action a dead agent gets, leaves the whole Park
state unchanged. -/
theorem execute_action_unknown_noop (s : EnvState PPercept) (aid : Nat)
    (act : String) (h1 : act ≠ "move down") (h2 : act ≠ "eat")
    (h3 : act ≠ "drink") : Park.execute_action s aid act = s := by
  simp [Park.execute_action, h1, h2, h3]

/-- Claim C10 witness: the empty action in the scenario Park. -/
theorem execute_action_unknown_noop_witness :
    Park.execute_action parkS0 0 "" = parkS0 :=
  execute_action_unknown_noop parkS0 0 "" (by decide) (by decide)
    (by decide)
